import Mathlib

/-!
Verification of the route/address cache subsystem of ndppd (`src/rt.c`).

The development shallowly embeds the parts of `rt.c` the properties talk
about:

* the Route Cache kept in the singly linked list `ndL_routes`, together
  with its freelist `ndL_free_routes` (`ndL_new_route`, lines 59-101, and
  `ndL_delete_route`, lines 103-128);
* the longest-prefix lookup `nd_rt_find_route` (lines 554-563);
* the dump coordinator guarding `nd_rt_dump_timeout`
  (`nd_rt_query_routes`, lines 485-518, `nd_rt_query_addresses`,
  lines 520-552, and the `NLMSG_DONE` branch of `ndL_io_handler`,
  lines 274-280);
* the shutdown retraction `nl_rt_remove_owned_routes` (lines 719-726)
  built on `nd_rt_remove_route` (lines 652-717);
* the BSD-variant record walker `ndL_handle` (lines 372-396).

Linked lists are embedded as Lean lists (head = list head); a pointer
unlink/insert becomes the corresponding list surgery.  Freelist entries
are logically dead between release and reuse (their contents are always
overwritten by `*new_route = *route` before they re-enter the cache), so
the freelists are carried as lists whose popped values are discarded.
Machine integers (`pflen`, `oif`, `table`, times) are embedded as `Nat`;
none of the verified code paths can overflow them.
-/

/-- An IPv6 address (`nd_addr_t`, 128 bits), embedded as its value as an
unsigned 128-bit big-endian integer. -/
structure nd_addr_t where
  val : Nat
deriving DecidableEq, Repr

/-- Modelled from the spec: `nd_addr_eq` is declared in `addr.h` but its
body (`addr.c`) is not part of `src/`; per the spec's data model an
address entry is identified by its 128-bit address, so address equality
is structural equality of the two 128-bit values. -/
def nd_addr_eq (a b : nd_addr_t) : Bool :=
  a.val == b.val

/-- Modelled from the spec: `nd_addr_match` is declared in `addr.h` but
its body (`addr.c`) is not part of `src/`; the spec specifies "standard
prefix-containment semantics": the first `pflen` bits (the high-order
bits of the 128-bit value) of the two addresses coincide. -/
def nd_addr_match (a b : nd_addr_t) (pflen : Nat) : Bool :=
  a.val >>> (128 - pflen) == b.val >>> (128 - pflen)

/-- One Route Cache entry (`nd_rt_route_t`, rt.h): destination, outbound
interface, prefix length, routing table, daemon-owned flag. -/
structure nd_rt_route_t where
  dst : nd_addr_t
  oif : Nat
  pflen : Nat
  table : Nat
  owned : Bool
deriving DecidableEq, Repr

/-- One Address Cache entry (`nd_rt_addr_t`, rt.h). -/
structure nd_rt_addr_t where
  iif : Nat
  addr : nd_addr_t
  pflen : Nat
deriving DecidableEq, Repr

/-- The subsystem's mutable state: `ndL_routes`, `ndL_free_routes`,
`ndL_addrs`, `ndL_free_addrs` and `nd_rt_dump_timeout` (rt.c lines
42-57). -/
structure RtState where
  routes : List nd_rt_route_t
  free_routes : List nd_rt_route_t
  addrs : List nd_rt_addr_t
  free_addrs : List nd_rt_addr_t
  dump_timeout : Nat
deriving DecidableEq, Repr

/-- The initial state: all four lists empty, no dump pending. -/
def ndL_init : RtState :=
  ⟨[], [], [], [], 0⟩

/-- The duplicate test of `ndL_new_route` (lines 65-66): same
destination, prefix length and table. -/
def sameKey (a b : nd_rt_route_t) : Bool :=
  nd_addr_eq a.dst b.dst && (a.pflen == b.pflen) && (a.table == b.table)

/-- The sorted-insertion scan of `ndL_new_route` (lines 79-97): walk the
list, break at the first `cur` with `route.pflen >= cur.pflen`, and link
the new entry right before it (at the list head when the break happens
immediately, at the tail when it never does). -/
def ndL_insert (route : nd_rt_route_t) : List nd_rt_route_t → List nd_rt_route_t
  | [] => [route]
  | cur :: rest =>
    if cur.pflen ≤ route.pflen then route :: cur :: rest
    else cur :: ndL_insert route rest

/-- `ndL_new_route` (lines 59-101): if an entry with the same
(destination, prefix length, table) already exists, return unchanged;
otherwise take an entry off the freelist (or allocate one — either way
its contents are fully overwritten by `*new_route = *route`) and insert
the copied route at the sort position found by the scan. -/
def ndL_new_route (s : RtState) (route : nd_rt_route_t) : RtState :=
  if s.routes.any (fun cur => sameKey cur route) then s
  else
    { s with
      routes := ndL_insert route s.routes
      free_routes := s.free_routes.tail }

/-- The deletion match of `ndL_delete_route` (lines 109-110): same
destination, outbound interface, prefix length and table. -/
def eq4 (cur route : nd_rt_route_t) : Bool :=
  nd_addr_eq cur.dst route.dst && (cur.oif == route.oif) &&
    (cur.pflen == route.pflen) && (cur.table == route.table)

/-- The scan of `ndL_delete_route` (lines 105-122): find the first entry
matching on all four fields, unlink it, and hand it back; `none` when no
entry matches. -/
def ndL_delete_scan : List nd_rt_route_t → nd_rt_route_t → List nd_rt_route_t × Option nd_rt_route_t
  | [], _ => ([], none)
  | cur :: rest, route =>
    if eq4 cur route then (rest, some cur)
    else
      let res := ndL_delete_scan rest route
      (cur :: res.1, res.2)

/-- `ndL_delete_route` (lines 103-128): if no entry matches on all four
fields, return with the state untouched; otherwise unlink the first
match and prepend it to the freelist (`ND_LL_PREPEND`, line 127). -/
def ndL_delete_route (s : RtState) (route : nd_rt_route_t) : RtState :=
  match ndL_delete_scan s.routes route with
  | (_, none) => s
  | (routes2, some cur) =>
    { s with routes := routes2, free_routes := cur :: s.free_routes }

/-- A decoded kernel notification affecting the Route Cache: the
decoders (`ndL_handle_newroute`/`ndL_handle_delroute` on the netlink
side, `ndL_handle_rt` on the BSD side) funnel every route notification
into either `ndL_new_route` or `ndL_delete_route`. -/
inductive nd_rt_event
  | newRoute (r : nd_rt_route_t)
  | delRoute (r : nd_rt_route_t)
deriving DecidableEq, Repr

/-- Effect of one decoded route event on the state. -/
def nd_rt_apply_event (s : RtState) : nd_rt_event → RtState
  | .newRoute r => ndL_new_route s r
  | .delRoute r => ndL_delete_route s r

/-- The state reached from the initially empty caches by a sequence of
decoded route add/delete events. -/
def nd_rt_apply_events (evs : List nd_rt_event) : RtState :=
  evs.foldl nd_rt_apply_event ndL_init

/-- `nd_rt_find_route` (lines 554-563): linear scan of the Route Cache,
returning the first entry whose prefix contains `addr` and whose table
matches. -/
def nd_rt_find_route (s : RtState) (addr : nd_addr_t) (table : Nat) : Option nd_rt_route_t :=
  s.routes.find? (fun route => nd_addr_match route.dst addr route.pflen && (route.table == table))

/-- The Route Cache order invariant: non-increasing prefix length from
head to tail. -/
def PflenSorted (l : List nd_rt_route_t) : Prop :=
  l.Pairwise (fun a b => b.pflen ≤ a.pflen)

/-- The Route Cache dedup invariant: no two entries share a
(destination, prefix length, table) key. -/
def KeyUnique (l : List nd_rt_route_t) : Prop :=
  l.Pairwise (fun a b => sameKey a b = false)

theorem sameKey_eq_true (a b : nd_rt_route_t) :
    sameKey a b = true ↔ (a.dst.val = b.dst.val ∧ a.pflen = b.pflen ∧ a.table = b.table) := by
  simp [sameKey, nd_addr_eq, and_assoc]

theorem sameKey_comm (a b : nd_rt_route_t) : sameKey a b = sameKey b a := by
  rw [Bool.eq_iff_iff, sameKey_eq_true, sameKey_eq_true]
  constructor <;> rintro ⟨h1, h2, h3⟩ <;> exact ⟨h1.symm, h2.symm, h3.symm⟩

theorem ndL_insert_perm (r : nd_rt_route_t) (l : List nd_rt_route_t) :
    (ndL_insert r l).Perm (r :: l) := by
  induction l with
  | nil => simp [ndL_insert]
  | cons cur rest ih =>
    by_cases h : cur.pflen ≤ r.pflen
    · simp [ndL_insert, h]
    · simp only [ndL_insert, h, if_false]
      exact ((ih.cons cur).trans (List.Perm.swap r cur rest))

theorem ndL_insert_mem (x r : nd_rt_route_t) (l : List nd_rt_route_t) :
    x ∈ ndL_insert r l ↔ x = r ∨ x ∈ l := by
  rw [(ndL_insert_perm r l).mem_iff]
  simp

theorem ndL_insert_sorted (r : nd_rt_route_t) (l : List nd_rt_route_t)
    (h : PflenSorted l) : PflenSorted (ndL_insert r l) := by
  induction l with
  | nil => simp [ndL_insert, PflenSorted]
  | cons cur rest ih =>
    rw [PflenSorted, List.pairwise_cons] at h
    by_cases hc : cur.pflen ≤ r.pflen
    · rw [PflenSorted]
      simp only [ndL_insert, hc, if_true, List.pairwise_cons]
      refine ⟨?_, ⟨h.1, h.2⟩⟩
      intro x hx
      rcases List.mem_cons.mp hx with rfl | hx
      · exact hc
      · exact le_trans (h.1 x hx) hc
    · rw [PflenSorted]
      simp only [ndL_insert, hc, if_false, List.pairwise_cons]
      refine ⟨?_, ih h.2⟩
      intro x hx
      rcases (ndL_insert_mem x r rest).mp hx with rfl | hx
      · omega
      · exact h.1 x hx

theorem ndL_insert_keyUnique (r : nd_rt_route_t) (l : List nd_rt_route_t)
    (hany : l.any (fun cur => sameKey cur r) = false)
    (h : KeyUnique l) : KeyUnique (ndL_insert r l) := by
  rw [List.any_eq_false] at hany
  have hsymm : ∀ {x y : nd_rt_route_t},
      sameKey x y = false → sameKey y x = false := by
    intro x y hxy; rw [sameKey_comm]; exact hxy
  rw [KeyUnique,
    List.Perm.pairwise_iff (fun hxy => hsymm hxy) (ndL_insert_perm r l)]
  rw [List.pairwise_cons]
  refine ⟨?_, h⟩
  intro x hx
  rw [sameKey_comm]
  simpa using hany x hx

theorem ndL_delete_scan_sublist (l : List nd_rt_route_t) (r : nd_rt_route_t) :
    (ndL_delete_scan l r).1.Sublist l := by
  induction l with
  | nil => simp [ndL_delete_scan]
  | cons cur rest ih =>
    by_cases h : eq4 cur r = true
    · simp [ndL_delete_scan, h]
    · simp only [ndL_delete_scan, h, if_false]
      exact ih.cons₂ cur

theorem ndL_new_route_sorted (s : RtState) (r : nd_rt_route_t)
    (hs : PflenSorted s.routes) : PflenSorted (ndL_new_route s r).routes := by
  rw [ndL_new_route]
  by_cases h : s.routes.any (fun cur => sameKey cur r) = true
  · simpa [h] using hs
  · rw [Bool.not_eq_true] at h
    simpa [h] using ndL_insert_sorted r s.routes hs

theorem ndL_new_route_keyUnique (s : RtState) (r : nd_rt_route_t)
    (hu : KeyUnique s.routes) : KeyUnique (ndL_new_route s r).routes := by
  rw [ndL_new_route]
  by_cases h : s.routes.any (fun cur => sameKey cur r) = true
  · simpa [h] using hu
  · rw [Bool.not_eq_true] at h
    simpa [h] using ndL_insert_keyUnique r s.routes h hu

theorem ndL_delete_route_sublist (s : RtState) (r : nd_rt_route_t) :
    (ndL_delete_route s r).routes.Sublist s.routes := by
  rw [ndL_delete_route]
  rcases hscan : ndL_delete_scan s.routes r with ⟨l2, freed⟩
  cases freed with
  | none => simp
  | some cur =>
    have := ndL_delete_scan_sublist s.routes r
    rw [hscan] at this
    simpa using this

theorem nd_rt_apply_event_sorted (s : RtState) (e : nd_rt_event)
    (hs : PflenSorted s.routes) : PflenSorted (nd_rt_apply_event s e).routes := by
  cases e with
  | newRoute r => exact ndL_new_route_sorted s r hs
  | delRoute r =>
    exact List.Pairwise.sublist (ndL_delete_route_sublist s r) hs

theorem nd_rt_apply_event_keyUnique (s : RtState) (e : nd_rt_event)
    (hu : KeyUnique s.routes) : KeyUnique (nd_rt_apply_event s e).routes := by
  cases e with
  | newRoute r => exact ndL_new_route_keyUnique s r hu
  | delRoute r =>
    exact List.Pairwise.sublist (ndL_delete_route_sublist s r) hu

theorem nd_rt_foldl_inv (evs : List nd_rt_event) :
    ∀ s : RtState, PflenSorted s.routes → KeyUnique s.routes →
      PflenSorted ((evs.foldl nd_rt_apply_event s).routes) ∧
        KeyUnique ((evs.foldl nd_rt_apply_event s).routes) := by
  induction evs with
  | nil => intro s hs hu; exact ⟨hs, hu⟩
  | cons e rest ih =>
    intro s hs hu
    exact ih (nd_rt_apply_event s e) (nd_rt_apply_event_sorted s e hs)
      (nd_rt_apply_event_keyUnique s e hu)

/-- C1: for every sequence of decoded route add and delete events applied
to the initially empty Route Cache, the cache holds at most one entry per
distinct (destination, prefix length, table) key, and iterating it from
head to tail yields entries in non-increasing prefix-length order. -/
theorem C1_route_cache_invariant (evs : List nd_rt_event) :
    KeyUnique (nd_rt_apply_events evs).routes ∧
      PflenSorted (nd_rt_apply_events evs).routes := by
  have h := nd_rt_foldl_inv evs ndL_init (by simp [ndL_init, PflenSorted])
    (by simp [ndL_init, KeyUnique])
  exact ⟨h.2, h.1⟩

theorem ndL_insert_eq_take_drop (r : nd_rt_route_t) (l : List nd_rt_route_t) :
    ndL_insert r l =
      l.takeWhile (fun c => decide (r.pflen < c.pflen)) ++
        r :: l.dropWhile (fun c => decide (r.pflen < c.pflen)) := by
  induction l with
  | nil => simp [ndL_insert]
  | cons cur rest ih =>
    by_cases h : cur.pflen ≤ r.pflen
    · have hd : decide (r.pflen < cur.pflen) = false := by
        simp only [decide_eq_false_iff_not]; omega
      simp [ndL_insert, h, List.takeWhile_cons, List.dropWhile_cons, hd]
    · have hd : decide (r.pflen < cur.pflen) = true := by
        simp only [decide_eq_true_eq]; omega
      simp [ndL_insert, h, List.takeWhile_cons, List.dropWhile_cons, hd, ih]

/-- C2: when `ndL_new_route` inserts a route whose (destination, prefix
length, table) key is not already present, the new entry lands exactly at
the boundary of the run of entries with strictly greater prefix length:
after every entry that outranks it and before the remainder of the list,
i.e. before the run of equal-length entries and before the first entry of
strictly smaller prefix length. -/
theorem C2_insert_position (s : RtState) (r : nd_rt_route_t)
    (h : s.routes.any (fun cur => sameKey cur r) = false) :
    (ndL_new_route s r).routes =
      s.routes.takeWhile (fun c => decide (r.pflen < c.pflen)) ++
        r :: s.routes.dropWhile (fun c => decide (r.pflen < c.pflen)) := by
  simp [ndL_new_route, h, ndL_insert_eq_take_drop]

/-- Concrete routes for the C2 witness: two existing /64 entries, one /32
entry, and a fresh /64 route whose key is absent. -/
def C2r1 : nd_rt_route_t := ⟨⟨1⟩, 1, 64, 0, false⟩

def C2r2 : nd_rt_route_t := ⟨⟨2⟩, 1, 64, 0, false⟩

def C2r3 : nd_rt_route_t := ⟨⟨3⟩, 1, 32, 0, false⟩

def C2new : nd_rt_route_t := ⟨⟨4⟩, 1, 64, 0, false⟩

def C2s : RtState := ⟨[C2r1, C2r2, C2r3], [], [], [], 0⟩

/-- C2 witness: the hypothesis and conclusion of `C2_insert_position`
hold at a concrete cache with an equal-prefix-length run. -/
theorem C2_witness :
    (C2s.routes.any (fun cur => sameKey cur C2new) = false) ∧
      (ndL_new_route C2s C2new).routes =
        C2s.routes.takeWhile (fun c => decide (C2new.pflen < c.pflen)) ++
          C2new :: C2s.routes.dropWhile (fun c => decide (C2new.pflen < c.pflen)) :=
  ⟨by decide, C2_insert_position C2s C2new (by decide)⟩

/-- C4: applying the same route add event twice in succession to any
cache state equals applying it once — the second application hits the
duplicate check (lines 63-68) and is a complete no-op, on the cache and
on the freelist alike. -/
theorem C4_add_idempotent (s : RtState) (r : nd_rt_route_t) :
    ndL_new_route (ndL_new_route s r) r = ndL_new_route s r := by
  by_cases h : s.routes.any (fun cur => sameKey cur r) = true
  · simp [ndL_new_route, h]
  · rw [Bool.not_eq_true] at h
    have hr : (ndL_insert r s.routes).any (fun cur => sameKey cur r) = true := by
      rw [List.any_eq_true]
      exact ⟨r, (ndL_insert_mem r r s.routes).mpr (Or.inl rfl),
        (sameKey_eq_true r r).mpr ⟨rfl, rfl, rfl⟩⟩
    simp [ndL_new_route, h, hr]

theorem ndL_delete_scan_none (l : List nd_rt_route_t) (r : nd_rt_route_t)
    (h : ∀ x ∈ l, eq4 x r = false) : ndL_delete_scan l r = (l, none) := by
  induction l with
  | nil => simp [ndL_delete_scan]
  | cons cur rest ih =>
    have hc := h cur (by simp)
    simp [ndL_delete_scan, hc, ih (fun x hx => h x (by simp [hx]))]

theorem ndL_delete_scan_found (l1 : List nd_rt_route_t) (c : nd_rt_route_t)
    (l2 : List nd_rt_route_t) (r : nd_rt_route_t)
    (h1 : ∀ x ∈ l1, eq4 x r = false) (hc : eq4 c r = true) :
    ndL_delete_scan (l1 ++ c :: l2) r = (l1 ++ l2, some c) := by
  induction l1 with
  | nil => simp [ndL_delete_scan, hc]
  | cons cur rest ih =>
    have h0 := h1 cur (by simp)
    simp [ndL_delete_scan, h0, ih (fun x hx => h1 x (by simp [hx]))]

/-- C5: `ndL_delete_route` unlinks and prepends to the freelist exactly
the first entry matching the incoming route on all four of destination,
outbound interface, prefix length and table; when no entry matches on
all four fields the whole state — cache and freelist — is returned
unchanged (the function returns `void`, so no failure is reported). -/
theorem C5_remove_exact (s : RtState) (r : nd_rt_route_t) :
    ((∀ x ∈ s.routes, eq4 x r = false) → ndL_delete_route s r = s) ∧
      (∀ l1 c l2, s.routes = l1 ++ c :: l2 → (∀ x ∈ l1, eq4 x r = false) →
        eq4 c r = true →
        ndL_delete_route s r =
          { s with routes := l1 ++ l2, free_routes := c :: s.free_routes }) := by
  constructor
  · intro h
    simp only [ndL_delete_route, ndL_delete_scan_none s.routes r h]
  · intro l1 c l2 hsplit h1 hc
    simp only [ndL_delete_route, hsplit, ndL_delete_scan_found l1 c l2 r h1 hc]

/-- Concrete routes for the C5 witness; the matched entry differs from
the delete event in its `owned` flag only, which deletion ignores. -/
def C5a : nd_rt_route_t := ⟨⟨6⟩, 2, 64, 0, false⟩

def C5c : nd_rt_route_t := ⟨⟨5⟩, 2, 48, 0, true⟩

def C5r : nd_rt_route_t := ⟨⟨5⟩, 2, 48, 0, false⟩

def C5s : RtState := ⟨[C5a, C5c], [], [], [], 0⟩

/-- C5 witness: `C5_remove_exact` applied at a concrete two-entry cache
whose second entry matches the delete event on all four fields. -/
theorem C5_witness :
    (C5s.routes = [C5a] ++ C5c :: []) ∧ (∀ x ∈ [C5a], eq4 x C5r = false) ∧
      (eq4 C5c C5r = true) ∧
      ndL_delete_route C5s C5r =
        { C5s with routes := [C5a] ++ [], free_routes := C5c :: C5s.free_routes } :=
  ⟨rfl, by decide, by decide,
    (C5_remove_exact C5s C5r).2 [C5a] C5c [] rfl (by decide) (by decide)⟩

theorem find_first_pflen_max (p : nd_rt_route_t → Bool) (l : List nd_rt_route_t)
    (hs : PflenSorted l) (r : nd_rt_route_t) (hf : l.find? p = some r) :
    ∀ x ∈ l, p x = true → x.pflen ≤ r.pflen := by
  induction l with
  | nil => simp at hf
  | cons a t ih =>
    rw [PflenSorted, List.pairwise_cons] at hs
    by_cases ha : p a = true
    · rw [List.find?_cons_of_pos t ha] at hf
      injection hf with hf
      subst hf
      intro x hx hpx
      rcases List.mem_cons.mp hx with rfl | hx
      · exact le_refl _
      · exact hs.1 x hx
    · rw [List.find?_cons_of_neg t ha] at hf
      intro x hx hpx
      rcases List.mem_cons.mp hx with rfl | hx
      · exact absurd hpx ha
      · exact ih hs.2 hf x hx hpx

/-- C3: over every cache state reachable by decoded add/delete events,
`nd_rt_find_route` returns `none` exactly when no entry of the queried
table contains the address, and when it returns an entry, that entry is
a containing entry of the queried table whose prefix length is maximal
among all containing entries of that table. -/
theorem C3_find_longest_match (evs : List nd_rt_event) (addr : nd_addr_t) (table : Nat) :
    (nd_rt_find_route (nd_rt_apply_events evs) addr table = none →
      ∀ x ∈ (nd_rt_apply_events evs).routes,
        ¬(nd_addr_match x.dst addr x.pflen = true ∧ x.table = table)) ∧
      (∀ r, nd_rt_find_route (nd_rt_apply_events evs) addr table = some r →
        r ∈ (nd_rt_apply_events evs).routes ∧
          nd_addr_match r.dst addr r.pflen = true ∧ r.table = table ∧
          (∀ x ∈ (nd_rt_apply_events evs).routes,
            nd_addr_match x.dst addr x.pflen = true → x.table = table →
              x.pflen ≤ r.pflen)) := by
  have hsorted : PflenSorted (nd_rt_apply_events evs).routes :=
    (nd_rt_foldl_inv evs ndL_init (by simp [ndL_init, PflenSorted])
      (by simp [ndL_init, KeyUnique])).1
  constructor
  · intro hnone x hx hcontra
    have hall := List.find?_eq_none.mp hnone x hx
    rw [Bool.and_eq_true] at hall
    exact hall ⟨hcontra.1, by simpa using hcontra.2⟩
  · intro r hfind
    have hp := List.find?_some hfind
    rw [Bool.and_eq_true, beq_iff_eq] at hp
    refine ⟨List.mem_of_find?_eq_some hfind, hp.1, hp.2, ?_⟩
    intro x hx hm ht
    refine find_first_pflen_max _ _ hsorted r hfind x hx ?_
    rw [Bool.and_eq_true, beq_iff_eq]
    exact ⟨hm, ht⟩

/-- Concrete fixtures for the C3 witness, following the spec's worked
example: a /32 and a /48 route on the documentation prefix, table 0. -/
def C3r32 : nd_rt_route_t := ⟨⟨0x20010DB8000000000000000000000000⟩, 1, 32, 0, false⟩

def C3r48 : nd_rt_route_t := ⟨⟨0x20010DB8000100000000000000000000⟩, 1, 48, 0, false⟩

def C3evs : List nd_rt_event := [.newRoute C3r32, .newRoute C3r48]

def C3q : nd_addr_t := ⟨0x20010DB8000100000000000000000001⟩

/-- C3 witness: on the cache built from the two overlapping routes, the
lookup of an address inside both prefixes returns the /48 entry, and the
theorem's maximality conclusion holds there. -/
theorem C3_witness :
    (nd_rt_find_route (nd_rt_apply_events C3evs) C3q 0 = some C3r48) ∧
      (C3r48 ∈ (nd_rt_apply_events C3evs).routes ∧
        nd_addr_match C3r48.dst C3q C3r48.pflen = true ∧ C3r48.table = 0 ∧
        (∀ x ∈ (nd_rt_apply_events C3evs).routes,
          nd_addr_match x.dst C3q x.pflen = true → x.table = 0 →
            x.pflen ≤ C3r48.pflen)) :=
  ⟨by decide, (C3_find_longest_match C3evs C3q 0).2 C3r48 (by decide)⟩

/-- A kernel dump request sent by the dump coordinator. -/
inductive DumpReq
  | routes
  | addresses
deriving DecidableEq, Repr

/-- Result of a dump-request call: the returned boolean, the value of
`nd_rt_dump_timeout` after the call, and the requests sent during the
call (the source sends through `nd_io_send` exactly on the success
path). -/
structure QueryOut where
  ok : Bool
  dump_timeout : Nat
  sent : List DumpReq
deriving DecidableEq, Repr

/-- `nd_rt_query_routes` (netlink variant, lines 485-518): refuse
whenever `nd_rt_dump_timeout` is nonzero (line 488); otherwise set the
timeout to `nd_current_time + 5000` (line 511), send one `RTM_GETROUTE`
dump request and return true. -/
def nd_rt_query_routes (now timeout : Nat) : QueryOut :=
  if timeout ≠ 0 then ⟨false, timeout, []⟩
  else ⟨true, now + 5000, [DumpReq.routes]⟩

/-- `nd_rt_query_addresses` (netlink variant, lines 520-552): identical
guard and timeout update, sending one `RTM_GETADDR` dump request. -/
def nd_rt_query_addresses (now timeout : Nat) : QueryOut :=
  if timeout ≠ 0 then ⟨false, timeout, []⟩
  else ⟨true, now + 5000, [DumpReq.addresses]⟩

/-- The `NLMSG_DONE` branch of `ndL_io_handler` (lines 276-280): effect
of one decoded netlink message of type `msgtype` on
`nd_rt_dump_timeout`; only `NLMSG_DONE` (type 3) touches it, clearing it
to 0. -/
def ndL_io_handle_msg_timeout (msgtype timeout : Nat) : Nat :=
  if msgtype = 3 then 0 else timeout

/-- Modelled from the spec: the expiry self-clear of the dump-pending
timestamp is performed by the daemon's scheduler loop, which is not part
of `src/` (only `rt.c` is); per §4.4, "a stalled or lost dump
self-clears after the window so a future request is not permanently
blocked" — once the current time reaches the pending-until timestamp,
the timestamp reverts to 0 ("no dump in flight"). -/
def ndL_dump_expire (now timeout : Nat) : Nat :=
  if timeout ≠ 0 ∧ timeout ≤ now then 0 else timeout

/-- C6: starting with no dump pending, two `nd_rt_query_routes` calls
before any `DumpDone` send exactly one kernel dump request: the first
call succeeds and sets the pending-until timestamp to now + 5000, the
second returns false, sends nothing and leaves the timestamp unchanged;
a decoded `NLMSG_DONE` message clears the timestamp to 0, after which a
further call succeeds again. -/
theorem C6_single_dump_request (now1 now2 now3 t : Nat) :
    (nd_rt_query_routes now1 0).ok = true ∧
      (nd_rt_query_routes now1 0).dump_timeout = now1 + 5000 ∧
      (nd_rt_query_routes now2 (nd_rt_query_routes now1 0).dump_timeout).ok = false ∧
      (nd_rt_query_routes now2 (nd_rt_query_routes now1 0).dump_timeout).sent = [] ∧
      (nd_rt_query_routes now2 (nd_rt_query_routes now1 0).dump_timeout).dump_timeout
        = now1 + 5000 ∧
      ((nd_rt_query_routes now1 0).sent ++
        (nd_rt_query_routes now2 (nd_rt_query_routes now1 0).dump_timeout).sent)
        = [DumpReq.routes] ∧
      ndL_io_handle_msg_timeout 3 t = 0 ∧
      (nd_rt_query_routes now3 (ndL_io_handle_msg_timeout 3 t)).ok = true := by
  have h5 : now1 + 5000 ≠ 0 := by omega
  simp [nd_rt_query_routes, ndL_io_handle_msg_timeout, h5]

/-- C7: a dump request is refused exactly while the pending-until
timestamp is nonzero and the (spec-modelled) expiry self-clear has not
yet fired; in particular, once the 5000-unit grace window set by a
successful `nd_rt_query_routes` has elapsed with no `DumpDone`, both
`nd_rt_query_routes` and `nd_rt_query_addresses` succeed again. -/
theorem C7_refusal_window (now t n0 : Nat) (h : n0 + 5000 ≤ now) :
    ((nd_rt_query_routes now (ndL_dump_expire now t)).ok = false ↔
        (t ≠ 0 ∧ now < t)) ∧
      (nd_rt_query_routes now
        (ndL_dump_expire now (nd_rt_query_routes n0 0).dump_timeout)).ok = true ∧
      (nd_rt_query_addresses now
        (ndL_dump_expire now (nd_rt_query_routes n0 0).dump_timeout)).ok = true := by
  refine ⟨?_, ?_, ?_⟩
  · by_cases h0 : t = 0
    · subst h0
      have he : ndL_dump_expire now 0 = 0 := by simp [ndL_dump_expire]
      rw [he]
      have hok : (nd_rt_query_routes now 0).ok = true := by simp [nd_rt_query_routes]
      rw [hok]
      simp
    · by_cases hexp : t ≤ now
      · have he : ndL_dump_expire now t = 0 := if_pos ⟨h0, hexp⟩
        rw [he]
        have hok : (nd_rt_query_routes now 0).ok = true := by simp [nd_rt_query_routes]
        rw [hok]
        constructor
        · intro hcon; cases hcon
        · intro hc; exact absurd hc.2 (by omega)
      · have he : ndL_dump_expire now t = t := if_neg (fun hcon => hexp hcon.2)
        rw [he]
        have hko : (nd_rt_query_routes now t).ok = false := by
          simp [nd_rt_query_routes, h0]
        rw [hko]
        simp only [true_iff]
        exact ⟨h0, by omega⟩
  · have hq : (nd_rt_query_routes n0 0).dump_timeout = n0 + 5000 := by
      simp [nd_rt_query_routes]
    rw [hq]
    have hclear : ndL_dump_expire now (n0 + 5000) = 0 := by
      simp [ndL_dump_expire]
      omega
    rw [hclear]
    simp [nd_rt_query_routes]
  · have hq : (nd_rt_query_routes n0 0).dump_timeout = n0 + 5000 := by
      simp [nd_rt_query_routes]
    rw [hq]
    have hclear : ndL_dump_expire now (n0 + 5000) = 0 := by
      simp [ndL_dump_expire]
      omega
    rw [hclear]
    simp [nd_rt_query_addresses]

/-- C7 witness: at concrete times — a dump issued at time 100, queried
again at time 6000 ≥ 5100 — both request kinds succeed again, and the
refusal characterization holds for the concrete stale timestamp 4242. -/
theorem C7_witness :
    (100 + 5000 ≤ 6000) ∧
      (((nd_rt_query_routes 6000 (ndL_dump_expire 6000 4242)).ok = false ↔
          ((4242 : Nat) ≠ 0 ∧ 6000 < 4242)) ∧
        (nd_rt_query_routes 6000
          (ndL_dump_expire 6000 (nd_rt_query_routes 100 0).dump_timeout)).ok = true ∧
        (nd_rt_query_addresses 6000
          (ndL_dump_expire 6000 (nd_rt_query_routes 100 0).dump_timeout)).ok = true) :=
  ⟨by decide, C7_refusal_window 6000 4242 100 (by decide)⟩

/-- A kernel delete-route request as sent by `nd_rt_remove_route`. -/
structure RemoveRouteReq where
  dst : nd_addr_t
  pflen : Nat
  table : Nat
deriving DecidableEq, Repr

/-- `nd_rt_remove_route` (lines 652-717): builds and sends one
`RTM_DELROUTE` request carrying the destination, prefix length and
table; it reads and writes no cache state, so its embedding is the
request it emits. -/
def nd_rt_remove_route (dst : nd_addr_t) (pflen table : Nat) : RemoveRouteReq :=
  ⟨dst, pflen, table⟩

/-- The loop body of `nl_rt_remove_owned_routes` (lines 721-725):
iterate the Route Cache and call `nd_rt_remove_route` for each entry
whose `owned` flag is set, collecting the emitted requests in
iteration order. -/
def ndL_remove_owned_go : List nd_rt_route_t → List RemoveRouteReq
  | [] => []
  | r :: rest =>
    if r.owned then nd_rt_remove_route r.dst r.pflen r.table :: ndL_remove_owned_go rest
    else ndL_remove_owned_go rest

/-- `nl_rt_remove_owned_routes` (lines 719-726): the loop only sends
requests — `nd_rt_remove_route` touches no lists and `ND_LL_FOREACH_S`
performs no unlink — so the state component is returned untouched next
to the emitted requests. -/
def nl_rt_remove_owned_routes (s : RtState) : RtState × List RemoveRouteReq :=
  (s, ndL_remove_owned_go s.routes)

theorem ndL_remove_owned_go_eq (l : List nd_rt_route_t) :
    ndL_remove_owned_go l =
      (l.filter (fun r => r.owned)).map (fun r => nd_rt_remove_route r.dst r.pflen r.table) := by
  induction l with
  | nil => simp [ndL_remove_owned_go]
  | cons r rest ih =>
    by_cases h : r.owned
    · simp [ndL_remove_owned_go, List.filter_cons, h, ih]
    · simp [ndL_remove_owned_go, List.filter_cons, h, ih]

/-- C8: `nl_rt_remove_owned_routes` emits, in cache order, exactly one
delete request per owned entry — carrying that entry's destination,
prefix length and table — emits nothing for non-owned entries, and every
non-owned entry is still in the Route Cache afterwards. -/
theorem C8_remove_owned_requests (s : RtState) :
    (nl_rt_remove_owned_routes s).2 =
        (s.routes.filter (fun r => r.owned)).map
          (fun r => nd_rt_remove_route r.dst r.pflen r.table) ∧
      (∀ r ∈ s.routes, r.owned = false →
        r ∈ (nl_rt_remove_owned_routes s).1.routes) := by
  constructor
  · exact ndL_remove_owned_go_eq s.routes
  · intro r hr _
    exact hr

/-- Concrete fixtures for the C8 witness: one owned and one non-owned
entry. -/
def C8own : nd_rt_route_t := ⟨⟨7⟩, 3, 96, 254, true⟩

def C8keep : nd_rt_route_t := ⟨⟨8⟩, 3, 80, 254, false⟩

def C8s : RtState := ⟨[C8own, C8keep], [], [], [], 0⟩

/-- C8 witness: on the concrete two-entry cache, exactly the owned
entry's request is emitted and the non-owned entry stays cached. -/
theorem C8_witness :
    ((nl_rt_remove_owned_routes C8s).2 =
        (C8s.routes.filter (fun r => r.owned)).map
          (fun r => nd_rt_remove_route r.dst r.pflen r.table)) ∧
      C8keep ∈ (nl_rt_remove_owned_routes C8s).1.routes :=
  ⟨(C8_remove_owned_requests C8s).1,
    (C8_remove_owned_requests C8s).2 C8keep (by decide) (by decide)⟩

/-- C10: `nl_rt_remove_owned_routes` leaves the entire in-memory state —
Route Cache (owned entries included), Address Cache, both freelists and
the dump timestamp — unchanged; its only output is the request list. -/
theorem C10_remove_owned_frame (s : RtState) :
    (nl_rt_remove_owned_routes s).1 = s :=
  rfl

/-- The record dispatch of `ndL_handle` (lines 382-394): which handler
the record at byte offset `i` is passed to, by its `type` byte (header
layout `ndL_msghdr_t`, lines 365-370: `u_short msglen`, `u_char
version`, `u_char type`); `RTM_ADD` = 1, `RTM_DELETE` = 2, `RTM_GET` = 4
go to `ndL_handle_rt`, `RTM_NEWADDR` = 12, `RTM_DELADDR` = 13 go to
`ndL_handle_ifa`, anything else falls through the switch. -/
inductive BsdDispatch
  | rt (offset : Nat)
  | ifa (offset : Nat)
deriving DecidableEq, Repr

/-- Dispatch of one record: the `type` byte sits at offset `i + 3`
(after the two little-endian `msglen` bytes and the `version` byte). -/
def ndL_dispatch (buf : List Nat) (i : Nat) : List BsdDispatch :=
  let t := buf.getD (i + 3) 0
  if t = 1 ∨ t = 2 ∨ t = 4 then [.rt i]
  else if t = 12 ∨ t = 13 then [.ifa i]
  else []

/-- `ndL_handle` (lines 372-396), fuel-indexed.  The C loop is
`for (size_t i = 0; i < buflen;) { hdr = buf + i; i += hdr->msglen;
if (i > buflen) break; switch (hdr->type) ... }`; one fuel unit is one
loop iteration, and a result of `none` means the loop has not exited
within the supplied fuel — so `∀ fuel, ndL_handle buf fuel 0 = none`
says the loop never terminates on `buf`.  Bytes are read with
`List.getD` (multi-byte `msglen` little-endian). -/
def ndL_handle (buf : List Nat) : Nat → Nat → Option (List BsdDispatch)
  | 0, _ => none
  | fuel + 1, i =>
    if i < buf.length then
      let msglen := buf.getD i 0 + 256 * buf.getD (i + 1) 0
      if i + msglen > buf.length then some []
      else
        match ndL_handle buf fuel (i + msglen) with
        | none => none
        | some evs => some (ndL_dispatch buf i ++ evs)
    else some []

/-- C9 (refuted as stated): the record walker `ndL_handle` does not
terminate on every input buffer — on a four-byte buffer whose single
record header declares `msglen` 0, the loop never advances (`i += 0`)
and never exits: no amount of fuel completes it.  (The claim's other
conjuncts — a zero-length buffer decoding to no events and a trailing
truncated record stopping the walk — do hold of this definition, but
the termination conjunct fails, and with it the guarantee that the
decoder never reads past the declared length, as the loop re-reads the
same header forever.) -/
theorem C9_zero_msglen_loops_forever :
    ∀ fuel : Nat, ndL_handle [0, 0, 0, 0] fuel 0 = none := by
  intro fuel
  induction fuel with
  | zero => rfl
  | succ n ih => simp [ndL_handle, ih]
